import Mathlib

/-!
Verification of the playback core of tidal-tui.

This file shallowly embeds the queue/playback state machine of
`src/player.rs`, the per-track URL cache of `src/rtidalapi/track.rs`, and
the ISO-8601-like duration parsing shared by `src/rtidalapi/track.rs` and
`src/rtidalapi/album.rs`, and proves the specification claims about them.

Modelling conventions:
* `Duration` values are modelled as natural numbers of nanoseconds
  (`Duration::from_secs 0` is `0`); `u64` second arithmetic wraps mod `2^64`
  exactly as a release build of the source does.
* `f32` gain values are modelled as exact rationals; the constant
  `MAX_VOLUME = 0.15` becomes `3/20`.  The claims about gains compare
  products of small decimal fractions, where exact rational arithmetic and
  `f32` arithmetic agree on order and on the tested equalities.
* External effects (URL resolution, stream decoding, `Sink::try_seek`) are
  oracles packed in an `Env`; the OS "now playing" display is a state field
  recording the last status pushed to it, and its `set_playback` /
  `set_metadata` calls are modelled as always succeeding.
* Fallible player operations (`Result<(), _>` on `&mut self` in Rust) become
  functions returning the mutated state together with a success flag, so the
  state reached on an error path is observable, as it is in the source.
-/

set_option autoImplicit false

namespace TidalTui

/-- Audio quality options in Tidal (`src/rtidalapi.rs`, enum `AudioQuality`). -/
inductive AudioQuality : Type
  | low96
  | low320
  | high
deriving DecidableEq, Repr

/-- A track, reduced to its identifier.  For the queue/playback claims only
track identity matters; the lazily cached metadata fields live in the
separate cache models below. -/
structure Track where
  id : Nat
deriving DecidableEq, Repr

/-- Playback status pushed to the OS "now playing" display
(souvlaki `MediaPlayback`), with the optional progress in nanoseconds. -/
inductive MediaPlayback : Type
  | playing (progress : Option Nat)
  | paused (progress : Option Nat)
deriving DecidableEq, Repr

/-- Oracles for the external effects of the playback engine:
`resolveOk t` — the metadata/URL resolution performed at the start of
`play_new_track` succeeds for `t`; `decodeOk t` — the stream download and
decoder setup succeed for `t`; `seekOk` — `Sink::try_seek` succeeds. -/
structure Env where
  resolveOk : Track → Bool
  decodeOk : Track → Bool
  seekOk : Bool

/-- The `Player` state of `src/player.rs` (the fields the claims are about:
the audio sink's handles and the tokio runtime carry no queue state).
`sink_gain` is the gain last applied to the rodio sink, `display` the
status last pushed to the OS display (`none` before the first push). -/
structure Player where
  current_track : Option Track
  queue : List Track
  queue_history : List Track
  position : Nat
  is_playing : Bool
  volume : Nat
  sink_gain : ℚ
  display : Option MediaPlayback
deriving DecidableEq, Repr

/-- `Player::MAX_VOLUME`: the fixed maximum gain ceiling `0.15`. -/
def MAX_VOLUME : ℚ := 3 / 20

/-- `Player::new`: fresh player; the sink gain is set to `MAX_VOLUME / 2.0`
and the volume percentage starts at 50. -/
def Player.new : Player :=
  { current_track := none
    queue := []
    queue_history := []
    position := 0
    is_playing := false
    volume := 50
    sink_gain := MAX_VOLUME / 2
    display := none }

/-- `Player::set_volume`: stores the clamped percentage, but computes the
sink gain from the *unclamped* argument, exactly as the source does
(`let volume_ratio = (volume as f32) / 100.0;` uses the parameter, not
`self.volume`). -/
def Player.set_volume (p : Player) (volume : Nat) : Player :=
  { p with
    volume := if volume > 100 then 100 else volume
    sink_gain := MAX_VOLUME * ((volume : ℚ) / 100) }

/-- `Player::get_volume`. -/
def Player.get_volume (p : Player) : Nat :=
  p.volume

/-- `Player::get_current_track`. -/
def Player.get_current_track (p : Player) : Option Track :=
  p.current_track

/-- `Player::get_position`. -/
def Player.get_position (p : Player) : Nat :=
  p.position

/-- `Player::set_queue`: clears the current track, replaces the queue,
clears the history and the sink. -/
def Player.set_queue (p : Player) (tracks : List Track) : Player :=
  { p with
    current_track := none
    queue := tracks
    queue_history := [] }

/-- `Player::shuffle_queue`: `self.queue.append(&mut self.queue_history)`
moves the whole history to the back of the queue and leaves the history
empty; the queue is then shuffled in place.  The random permutation drawn
from the thread rng is abstracted as the parameter `shuf`. -/
def Player.shuffle_queue (shuf : List Track → List Track) (p : Player) : Player :=
  { p with
    queue := shuf (p.queue ++ p.queue_history)
    queue_history := [] }

/-- `Player::play_new_track`: resolves the track's URL and metadata (may
fail), clears the sink, pushes metadata and a Playing status to the OS
display, opens the download/decoder pipeline (may fail), and on success
installs the track as current, sets the playing flag and resets the
position.  The boolean is the `Result`: `true` for `Ok(())`. -/
def Player.play_new_track (env : Env) (p : Player) (t : Track) : Player × Bool :=
  if env.resolveOk t then
    let p1 : Player := { p with display := some (MediaPlayback.playing none) }
    if env.decodeOk t then
      ({ p1 with
          current_track := some t
          is_playing := true
          position := 0 }, true)
    else
      (p1, false)
  else
    (p, false)

/-- `Player::set_position`: seeks the sink and stores the position, but only
when a current track exists; a seek failure propagates before the position
field is written. -/
def Player.set_position (env : Env) (p : Player) (position : Nat) : Player × Bool :=
  if p.current_track.isSome then
    if env.seekOk then
      ({ p with position := position }, true)
    else
      (p, false)
  else
    (p, true)

/-- `Player::play`: resumes a paused current track, or pops the queue head
and loads it when idle with a non-empty queue. -/
def Player.play (env : Env) (p : Player) : Player × Bool :=
  if p.current_track.isSome && !p.is_playing then
    ({ p with
        is_playing := true
        display := some (MediaPlayback.playing (some p.position)) }, true)
  else if p.current_track.isNone && p.queue.length > 0 then
    match p.queue with
    | [] => (p, true)
    | t :: rest => Player.play_new_track env { p with queue := rest } t
  else
    (p, true)

/-- `Player::pause`: unconditionally clears the playing flag, pushes a
Paused status with the current position, pauses the sink. -/
def Player.pause (p : Player) : Player × Bool :=
  ({ p with
      is_playing := false
      display := some (MediaPlayback.paused (some p.position)) }, true)

/-- `Player::next`: with a current track and a non-empty queue, pushes the
old current onto the history tail, pops the queue head and loads it; with a
current track and an empty queue, restarts the same track (seek to 0, push
a Paused status); with no current track, does nothing. -/
def Player.next (env : Env) (p : Player) : Player × Bool :=
  match p.current_track with
  | none => (p, true)
  | some current =>
    match p.queue with
    | next_track :: rest =>
      Player.play_new_track env
        { p with
            current_track := none
            queue := rest
            queue_history := p.queue_history ++ [current] }
        next_track
    | [] =>
      let r := Player.set_position env { p with current_track := some current } 0
      if r.2 then
        ({ r.1 with display := some (MediaPlayback.paused (some 0)) }, true)
      else
        (r.1, false)

/-- `Player::prev`: with a current track and a non-empty history, pushes the
current track onto the queue front, pops the history tail and loads it;
with an empty history, same restart behaviour as `next`; with no current
track, does nothing. -/
def Player.prev (env : Env) (p : Player) : Player × Bool :=
  match p.current_track with
  | none => (p, true)
  | some current =>
    match p.queue_history.getLast? with
    | some prev_track =>
      Player.play_new_track env
        { p with
            current_track := none
            queue := current :: p.queue
            queue_history := p.queue_history.dropLast }
        prev_track
    | none =>
      let r := Player.set_position env { p with current_track := some current } 0
      if r.2 then
        ({ r.1 with display := some (MediaPlayback.paused (some 0)) }, true)
      else
        (r.1, false)

/-- Whole-second value of a nanosecond position as the polling loop computes
it: `as_secs_f64().round()`, i.e. rounding to the nearest second, halves
away from zero (positive here, so halves up). -/
def roundSecs (ns : Nat) : Nat :=
  (ns + 500000000) / 1000000000

/-- One iteration of the position-polling block of
`Player::start_polling_thread` (the part guarded by `is_playing`),
parameterised by the position read from the sink.  The returned boolean
records whether a re-render notification was sent to the app channel. -/
def Player.tick (env : Env) (p : Player) (enginePos : Nat) : Player × Bool :=
  if p.is_playing then
    if enginePos ≠ 0 ∧ enginePos = p.position then
      ((Player.next env p).1, true)
    else if roundSecs enginePos ≠ roundSecs p.position then
      ({ p with
          position := enginePos
          display := some (MediaPlayback.playing (some enginePos)) }, true)
    else
      ({ p with position := enginePos }, false)
  else
    (p, false)

/-- The URL cache slots of a `Track` (`src/rtidalapi/track.rs`, fields
`url : Arc<Mutex<Option<String>>>` and
`url_audio_quality : Arc<Mutex<Option<AudioQuality>>>`). -/
structure TrackUrlCache where
  url : Option String
  url_audio_quality : Option AudioQuality
deriving DecidableEq, Repr

/-- `Track::new` leaves both URL cache slots empty. -/
def TrackUrlCache.new : TrackUrlCache :=
  { url := none, url_audio_quality := none }

/-- Environment of one `Track::get_url` call: the session's active audio
quality and the outcome of the external (Python) URL resolution.

Modelled from the spec: `Session::get_audio_quality`, the getter read by
`get_url`, is not part of the sources (only `set_audio_quality` is); per the
spec it returns the session's current audio quality setting, modelled here
as the field `active_quality`. -/
structure UrlEnv where
  active_quality : AudioQuality
  resolution : Option String
deriving DecidableEq, Repr

/-- `Track::get_url`: re-resolves iff the URL slot is empty or the cached
quality differs from the session's active quality
(`unlocked_url.is_none() || unlocked_url_audio_quality.is_some_and(|quality|
quality != self.session.get_audio_quality())`); on success both slots are
overwritten.  Returns the new cache state, the `Result` (`none` models the
error case), and whether the external resolver was invoked. -/
def Track.get_url (env : UrlEnv) (c : TrackUrlCache) :
    TrackUrlCache × Option String × Bool :=
  if c.url.isNone || c.url_audio_quality.any (fun quality => quality ≠ env.active_quality) then
    match env.resolution with
    | none => (c, none, true)
    | some track_url =>
      ({ url := some track_url, url_audio_quality := some env.active_quality },
        some track_url, true)
  else
    -- The guard failed, so `c.url` is `some`; `unwrap().clone()` in the source.
    (c, c.url, false)

/-- The inclusive code point ranges of the Unicode general category Nd
(decimal number), Unicode 15.0.0 — the class the regex crate's `\d`
matches in its default Unicode mode.  Later Unicode revisions only add
further ranges for newly encoded scripts. -/
def ndRanges : List (Nat × Nat) :=
  [ (48, 57), (1632, 1641), (1776, 1785), (1984, 1993), (2406, 2415),
    (2534, 2543), (2662, 2671), (2790, 2799), (2918, 2927), (3046, 3055),
    (3174, 3183), (3302, 3311), (3430, 3439), (3558, 3567), (3664, 3673),
    (3792, 3801), (3872, 3881), (4160, 4169), (4240, 4249), (6112, 6121),
    (6160, 6169), (6470, 6479), (6608, 6617), (6784, 6793), (6800, 6809),
    (6992, 7001), (7088, 7097), (7232, 7241), (7248, 7257), (42528, 42537),
    (43216, 43225), (43264, 43273), (43472, 43481), (43504, 43513), (43600, 43609),
    (44016, 44025), (65296, 65305), (66720, 66729), (68912, 68921), (69734, 69743),
    (69872, 69881), (69942, 69951), (70096, 70105), (70384, 70393), (70736, 70745),
    (70864, 70873), (71248, 71257), (71360, 71369), (71472, 71481), (71904, 71913),
    (72016, 72025), (72784, 72793), (73040, 73049), (73120, 73129), (73552, 73561),
    (92768, 92777), (92864, 92873), (93008, 93017), (120782, 120831), (123200, 123209),
    (123632, 123641), (124144, 124153), (125264, 125273), (130032, 130041) ]

/-- Membership in `\p{Nd}`: what the regex `\d` matches. -/
def isNd (c : Char) : Bool :=
  ndRanges.any (fun r => r.1 ≤ c.toNat && c.toNat ≤ r.2)

/-- Splits a character list into its longest prefix of `\d` characters
(Unicode decimal digits) and the rest — the greedy behaviour of a leading
regex group `\d+` inside a block whose next element is a non-digit
letter. -/
def takeDigits : List Char → List Char × List Char
  | [] => ([], [])
  | c :: cs =>
    if isNd c then
      let r := takeDigits cs
      (c :: r.1, r.2)
    else
      ([], c :: cs)

/-- Reads as many `(\d+)X` blocks as possible for the block letter `X`
(regex `((?<cap>\d+)X)*`); the capture is the digit run of the last block
read, as the regex crate keeps the last iteration's capture.  `fuel` only
ensures termination: each block consumes at least two characters, so with
`fuel ≥ length` the fuel never runs out before the input does. -/
def readBlocks (letter : Char) : Nat → List Char → Option (List Char) →
    Option (List Char) × List Char
  | 0, cs, cap => (cap, cs)
  | fuel + 1, cs, cap =>
    let r := takeDigits cs
    match r.1 with
    | [] => (cap, cs)
    | _ :: _ =>
      match r.2 with
      | [] => (cap, cs)
      | r0 :: rs =>
        if r0 = letter then
          readBlocks letter fuel rs (some r.1)
        else
          (cap, cs)

/-- The capture groups of the duration regex
`^PT((?<hours>\d+)H)*((?<mins>\d+)M)*((?<secs>\d+)S)*$` applied to a
character list: `none` when the string does not match at all, otherwise the
three optional capture strings. -/
def capturesDuration (s : List Char) :
    Option (Option (List Char) × Option (List Char) × Option (List Char)) :=
  match s with
  | 'P' :: 'T' :: rest =>
    let rh := readBlocks 'H' rest.length rest none
    let rm := readBlocks 'M' rh.2.length rh.2 none
    let rs := readBlocks 'S' rm.2.length rm.2 none
    if rs.2 = [] then some (rh.1, rm.1, rs.1) else none
  | _ => none

/-- Numeric value of a digit string. -/
def digitsToNat (ds : List Char) : Nat :=
  ds.foldl (fun a c => a * 10 + (c.toNat - 48)) 0

/-- `u64::MAX + 1`. -/
def U64_MOD : Nat := 2 ^ 64

/-- `capture.as_str().parse::<u64>().unwrap_or(0)`: Rust's `u64` parse
accepts only ASCII digits, so a capture containing a non-ASCII `\p{Nd}`
digit fails to parse and yields 0, as does a value that overflows `u64`. -/
def parseU64OrZero (ds : List Char) : Nat :=
  if ds.all Char.isDigit && digitsToNat ds < U64_MOD then digitsToNat ds else 0

/-- A missing capture contributes 0 (`match captures.name(..) { None => 0, .. }`). -/
def captureValue (cap : Option (List Char)) : Nat :=
  cap.elim 0 parseU64OrZero

/-- The seconds value `Track::get_duration` / `Album::get_duration` compute
from a duration attribute string: 0 when the regex does not match, and
otherwise `(hours * 60 * 60) + (mins * 60) + secs` in wrapping `u64`
arithmetic, as in a release build. -/
def durationSecsOfChars (s : List Char) : Nat :=
  match capturesDuration s with
  | none => 0
  | some caps =>
    ((captureValue caps.1 * 60 * 60) + (captureValue caps.2.1 * 60) +
      captureValue caps.2.2) % U64_MOD

/-- String-level wrapper over `durationSecsOfChars`. -/
def durationSecsOfString (s : String) : Nat :=
  durationSecsOfChars s.toList

/-- The duration cache slot of a `Track` (`duration : OnceCell<Duration>`)
together with the already-resolved attributes' duration string it parses
(`self.get_attribtues()?.duration`).  `Album` stores its attributes eagerly
and carries an identical `OnceCell`, so the same model covers
`Album::get_duration`. -/
structure DurationCache where
  durationStr : String
  duration : Option Nat
deriving DecidableEq, Repr

/-- `Track::get_duration` / `Album::get_duration` via
`OnceCell::get_or_try_init`: a filled cell is returned as is; an empty cell
is filled with the parse of the duration string.  The boolean records
whether the parse was computed on this call. -/
def DurationCache.get_duration (c : DurationCache) : DurationCache × Nat × Bool :=
  match c.duration with
  | some d => (c, d, false)
  | none =>
    let d := durationSecsOfChars c.durationStr.toList
    ({ c with duration := some d }, d, true)

/-- C1: the claim says `set_volume` clamps the stored volume to [0,100] and
applies a gain that never exceeds the `MAX_VOLUME` ceiling even for inputs
above 100.  The code computes the gain from the unclamped argument: at
input 150 the stored volume is clamped to 100, but the sink gain becomes
`0.15 * 1.5 = 0.225`, strictly above the ceiling `0.15` — contradicting
both the claim and the function's own saturation doc comment (a slip:
`volume` is used instead of `self.volume` in the ratio). -/
theorem C1_set_volume_gain_exceeds_ceiling :
    (Player.new.set_volume 150).volume = 100 ∧
    (Player.new.set_volume 150).sink_gain = 9 / 40 ∧
    MAX_VOLUME < (Player.new.set_volume 150).sink_gain := by
  refine ⟨rfl, ?_, ?_⟩ <;> norm_num [Player.new, Player.set_volume, MAX_VOLUME]

/-- C10: a freshly constructed `Player` has no current track, empty queue
and history, position zero, playing flag false, volume 50, and a sink gain
of half the `MAX_VOLUME` ceiling, which agrees with the linear volume
mapping evaluated at 50. -/
theorem C10_new_player_initial_state :
    Player.new.current_track = none ∧ Player.new.queue = [] ∧
    Player.new.queue_history = [] ∧ Player.new.position = 0 ∧
    Player.new.is_playing = false ∧ Player.new.volume = 50 ∧
    Player.new.sink_gain = MAX_VOLUME / 2 ∧
    MAX_VOLUME / 2 = MAX_VOLUME * ((50 : ℚ) / 100) :=
  ⟨rfl, rfl, rfl, rfl, rfl, rfl, rfl, by norm_num [MAX_VOLUME]⟩

/-- C2 counterexample: the claim says `next()` on a player with a current
track and an empty pending queue puts the player in the Paused state with
`is_playing` becoming false.  On a playing player with an empty queue the
code restarts the track but never touches `is_playing`: it stays `true`. -/
theorem C2_counterexample :
    ¬ ((Player.next ⟨fun _ => true, fun _ => true, true⟩
          { Player.new with
              current_track := some ⟨0⟩
              is_playing := true
              position := 7 }).1.is_playing = false) := by
  decide

/-- C2 amended: with a current track, an empty pending queue and a
successful sink seek, `next()` leaves the current track unchanged, resets
the position to zero, pushes a Paused status (progress 0) to the OS
display, and leaves the `is_playing` flag unchanged; `prev()` with an empty
history behaves the same way. -/
theorem C2_next_empty_restart (env : Env) (p : Player) (c : Track)
    (hc : p.current_track = some c) (hseek : env.seekOk = true) :
    (p.queue = [] →
      Player.next env p =
        ({ p with position := 0, display := some (MediaPlayback.paused (some 0)) }, true)) ∧
    (p.queue_history = [] →
      Player.prev env p =
        ({ p with position := 0, display := some (MediaPlayback.paused (some 0)) }, true)) := by
  obtain ⟨cur, q, qh, pos, playing, vol, gain, disp⟩ := p
  simp only [Player.mk.injEq] at hc ⊢
  subst hc
  constructor
  · intro hq
    subst hq
    simp [Player.next, Player.set_position, hseek]
  · intro hh
    subst hh
    simp [Player.prev, Player.set_position, hseek]

/-- C2 witness for the amended theorem. -/
theorem C2_witness :
    Player.next ⟨fun _ => true, fun _ => true, true⟩
        { Player.new with current_track := some ⟨1⟩, is_playing := true } =
      ({ Player.new with
          current_track := some ⟨1⟩
          is_playing := true
          position := 0
          display := some (MediaPlayback.paused (some 0)) }, true) :=
  (C2_next_empty_restart ⟨fun _ => true, fun _ => true, true⟩
    { Player.new with current_track := some ⟨1⟩, is_playing := true } ⟨1⟩ rfl rfl).1 rfl

/-- C9: with no current track, `next()` and `prev()` return Ok and leave the
whole player state unchanged, even when the pending queue is non-empty;
only `play()` starts the queue head from the idle state. -/
theorem C9_next_prev_noop_without_current (env : Env) (p : Player)
    (hc : p.current_track = none) :
    Player.next env p = (p, true) ∧ Player.prev env p = (p, true) ∧
    (∀ t rest, p.queue = t :: rest → env.resolveOk t = true → env.decodeOk t = true →
      (Player.play env p).1.current_track = some t ∧ (Player.play env p).1.queue = rest) := by
  refine ⟨?_, ?_, ?_⟩
  · simp [Player.next, hc]
  · simp [Player.prev, hc]
  · intro t rest hq hres hdec
    simp [Player.play, hc, hq, Player.play_new_track, hres, hdec]

/-- C9 witness. -/
theorem C9_witness :
    Player.next ⟨fun _ => true, fun _ => true, true⟩
        { Player.new with queue := [⟨4⟩, ⟨5⟩] } =
      ({ Player.new with queue := [⟨4⟩, ⟨5⟩] }, true) ∧
    (Player.play ⟨fun _ => true, fun _ => true, true⟩
        { Player.new with queue := [⟨4⟩, ⟨5⟩] }).1.current_track = some ⟨4⟩ := by
  have h := C9_next_prev_noop_without_current ⟨fun _ => true, fun _ => true, true⟩
    { Player.new with queue := [⟨4⟩, ⟨5⟩] } rfl
  exact ⟨h.1, (h.2.2 ⟨4⟩ [⟨5⟩] rfl rfl rfl).1⟩

/-- C6: with a current track and a non-empty pending queue, when the load of
the popped track fails (at resolution or at decode), `next()` returns the
error and does not roll back: the old current track has been pushed onto
the history tail, the failed track has been removed from the pending queue,
and the current-track slot is left empty. -/
theorem C6_next_failed_load_not_rolled_back (env : Env) (p : Player) (c t : Track)
    (rest : List Track) (hc : p.current_track = some c) (hq : p.queue = t :: rest)
    (hfail : env.resolveOk t = false ∨ env.decodeOk t = false) :
    (Player.next env p).2 = false ∧
    (Player.next env p).1.current_track = none ∧
    (Player.next env p).1.queue = rest ∧
    (Player.next env p).1.queue_history = p.queue_history ++ [c] := by
  rcases hfail with hfail | hfail
  · simp [Player.next, hc, hq, Player.play_new_track, hfail]
  · rcases hres : env.resolveOk t with _ | _ <;>
      simp [Player.next, hc, hq, Player.play_new_track, hres, hfail]

/-- C6 witness. -/
theorem C6_witness :
    (Player.next ⟨fun _ => false, fun _ => true, true⟩
        { Player.new with current_track := some ⟨1⟩, queue := [⟨2⟩, ⟨3⟩] }).2 = false ∧
    (Player.next ⟨fun _ => false, fun _ => true, true⟩
        { Player.new with current_track := some ⟨1⟩, queue := [⟨2⟩, ⟨3⟩] }).1.current_track
        = none ∧
    (Player.next ⟨fun _ => false, fun _ => true, true⟩
        { Player.new with current_track := some ⟨1⟩, queue := [⟨2⟩, ⟨3⟩] }).1.queue = [⟨3⟩] ∧
    (Player.next ⟨fun _ => false, fun _ => true, true⟩
        { Player.new with current_track := some ⟨1⟩, queue := [⟨2⟩, ⟨3⟩] }).1.queue_history
        = [] ++ [⟨1⟩] :=
  C6_next_failed_load_not_rolled_back ⟨fun _ => false, fun _ => true, true⟩
    { Player.new with current_track := some ⟨1⟩, queue := [⟨2⟩, ⟨3⟩] } ⟨1⟩ ⟨2⟩ [⟨3⟩]
    rfl rfl (Or.inl rfl)

/-- C3: with a current track, a non-empty pending queue and successful
loads, `next()` followed by `prev()` returns to the original current track
with the pending queue and the history equal to their contents before the
`next()` call. -/
theorem C3_next_prev_roundtrip (env : Env) (p : Player) (c t : Track) (rest : List Track)
    (hc : p.current_track = some c) (hq : p.queue = t :: rest)
    (ht : env.resolveOk t = true ∧ env.decodeOk t = true)
    (hcl : env.resolveOk c = true ∧ env.decodeOk c = true) :
    (Player.next env p).2 = true ∧
    (Player.prev env (Player.next env p).1).2 = true ∧
    (Player.prev env (Player.next env p).1).1.current_track = some c ∧
    (Player.prev env (Player.next env p).1).1.queue = p.queue ∧
    (Player.prev env (Player.next env p).1).1.queue_history = p.queue_history := by
  obtain ⟨ht1, ht2⟩ := ht
  obtain ⟨hc1, hc2⟩ := hcl
  have hnext : Player.next env p =
      ({ p with
          current_track := some t
          queue := rest
          queue_history := p.queue_history ++ [c]
          is_playing := true
          position := 0
          display := some (MediaPlayback.playing none) }, true) := by
    simp [Player.next, hc, hq, Player.play_new_track, ht1, ht2]
  rw [hnext]
  simp [Player.prev, Player.play_new_track, hc1, hc2, hq,
    List.getLast?_concat, List.dropLast_concat]

/-- C3 witness. -/
theorem C3_witness :
    (Player.next ⟨fun _ => true, fun _ => true, true⟩
        { Player.new with current_track := some ⟨1⟩, queue := [⟨2⟩] }).2 = true ∧
    (Player.prev ⟨fun _ => true, fun _ => true, true⟩
        (Player.next ⟨fun _ => true, fun _ => true, true⟩
          { Player.new with current_track := some ⟨1⟩, queue := [⟨2⟩] }).1).2 = true ∧
    (Player.prev ⟨fun _ => true, fun _ => true, true⟩
        (Player.next ⟨fun _ => true, fun _ => true, true⟩
          { Player.new with current_track := some ⟨1⟩, queue := [⟨2⟩] }).1).1.current_track
        = some ⟨1⟩ ∧
    (Player.prev ⟨fun _ => true, fun _ => true, true⟩
        (Player.next ⟨fun _ => true, fun _ => true, true⟩
          { Player.new with current_track := some ⟨1⟩, queue := [⟨2⟩] }).1).1.queue
        = ({ Player.new with current_track := some ⟨1⟩, queue := [⟨2⟩] } : Player).queue ∧
    (Player.prev ⟨fun _ => true, fun _ => true, true⟩
        (Player.next ⟨fun _ => true, fun _ => true, true⟩
          { Player.new with current_track := some ⟨1⟩, queue := [⟨2⟩] }).1).1.queue_history
        = ({ Player.new with current_track := some ⟨1⟩, queue := [⟨2⟩] } : Player).queue_history :=
  C3_next_prev_roundtrip ⟨fun _ => true, fun _ => true, true⟩
    { Player.new with current_track := some ⟨1⟩, queue := [⟨2⟩] } ⟨1⟩ ⟨2⟩ []
    rfl rfl ⟨rfl, rfl⟩ ⟨rfl, rfl⟩

/-- C4: for any permutation drawn by the rng, `shuffle_queue` leaves the
multiset union of pending queue and history unchanged (pending afterwards
holds exactly that union and the history is empty) and changes neither the
current track nor the playing flag nor the position. -/
theorem C4_shuffle_preserves_union (shuf : List Track → List Track) (p : Player)
    (hshuf : ∀ l, (shuf l).Perm l) :
    ((Player.shuffle_queue shuf p).queue ++
        (Player.shuffle_queue shuf p).queue_history).Perm
      (p.queue ++ p.queue_history) ∧
    (Player.shuffle_queue shuf p).queue_history = [] ∧
    (Player.shuffle_queue shuf p).current_track = p.current_track ∧
    (Player.shuffle_queue shuf p).is_playing = p.is_playing ∧
    (Player.shuffle_queue shuf p).position = p.position := by
  refine ⟨?_, rfl, rfl, rfl, rfl⟩
  simpa [Player.shuffle_queue] using hshuf (p.queue ++ p.queue_history)

/-- C4 witness, with the identity permutation. -/
theorem C4_witness :
    (∀ l : List Track, (id l).Perm l) ∧
    (((Player.shuffle_queue id
          { Player.new with queue := [⟨1⟩], queue_history := [⟨2⟩] }).queue ++
        (Player.shuffle_queue id
          { Player.new with queue := [⟨1⟩], queue_history := [⟨2⟩] }).queue_history).Perm
      ([⟨1⟩] ++ [⟨2⟩]) ∧
      (Player.shuffle_queue id
        { Player.new with queue := [⟨1⟩], queue_history := [⟨2⟩] }).queue_history = []) := by
  have h := C4_shuffle_preserves_union id
    { Player.new with queue := [⟨1⟩], queue_history := [⟨2⟩] }
    (fun l => List.Perm.refl l)
  exact ⟨fun l => List.Perm.refl l, h.1, h.2.1⟩

/-- C8: on a polling tick while playing, a non-zero engine position equal to
the previously stored one triggers `next()`; otherwise the stored position
is always refreshed to the read value, and the OS display progress push and
the re-render notification happen exactly when the whole-second value of
the position changed; while not playing the tick changes nothing. -/
theorem C8_polling_tick (env : Env) (p : Player) (enginePos : Nat) :
    (p.is_playing = true → enginePos ≠ 0 → enginePos = p.position →
      Player.tick env p enginePos = ((Player.next env p).1, true)) ∧
    (p.is_playing = true → ¬(enginePos ≠ 0 ∧ enginePos = p.position) →
      (Player.tick env p enginePos).1.position = enginePos ∧
      (roundSecs enginePos ≠ roundSecs p.position →
        Player.tick env p enginePos =
          ({ p with
              position := enginePos
              display := some (MediaPlayback.playing (some enginePos)) }, true)) ∧
      (roundSecs enginePos = roundSecs p.position →
        Player.tick env p enginePos = ({ p with position := enginePos }, false))) ∧
    (p.is_playing = false → Player.tick env p enginePos = (p, false)) := by
  refine ⟨?_, ?_, ?_⟩
  · intro hp h0 hpos
    subst hpos
    simp [Player.tick, hp, h0]
  · intro hp hne
    refine ⟨?_, ?_, ?_⟩
    · by_cases hr : roundSecs enginePos = roundSecs p.position <;>
        simp [Player.tick, hp, hne, hr]
    · intro hr
      simp [Player.tick, hp, hne, hr]
    · intro hr
      simp [Player.tick, hp, hne, hr]
  · intro hp
    simp [Player.tick, hp]

/-- C8 witness: a playing player at stored position 0 reading 1.5s. -/
theorem C8_witness :
    Player.tick ⟨fun _ => true, fun _ => true, true⟩
        { Player.new with is_playing := true } 1500000000 =
      ({ Player.new with
          is_playing := true
          position := 1500000000
          display := some (MediaPlayback.playing (some 1500000000)) }, true) :=
  (((C8_polling_tick ⟨fun _ => true, fun _ => true, true⟩
      { Player.new with is_playing := true } 1500000000).2.1 rfl
      (by decide)).2.1 (by decide))

/-- C5: the URL is resolved and cached together with the quality used, at
most once per quality change: a first call (empty slot) invokes the
resolver; a call while the cached quality equals the active quality returns
the cached URL without invoking it; a call after the active quality changed
invokes it exactly once, and a repeated call at the new quality hits the
cache. -/
theorem C5_get_url_quality_cache (env : UrlEnv) (c : TrackUrlCache) :
    (c.url = none → (Track.get_url env c).2.2 = true) ∧
    (∀ u, c.url = some u → c.url_audio_quality = some env.active_quality →
      Track.get_url env c = (c, some u, false)) ∧
    (∀ u q, env.resolution = some u → c.url_audio_quality = some q →
      q ≠ env.active_quality →
      Track.get_url env c =
        (⟨some u, some env.active_quality⟩, some u, true) ∧
      Track.get_url env (⟨some u, some env.active_quality⟩ : TrackUrlCache) =
        (⟨some u, some env.active_quality⟩, some u, false)) := by
  refine ⟨?_, ?_, ?_⟩
  · intro hu
    rcases hres : env.resolution with _ | u <;>
      simp [Track.get_url, hu, hres]
  · intro u hu hquality
    simp [Track.get_url, hu, hquality]
  · intro u q hres hquality hne
    constructor
    · simp [Track.get_url, hquality, hne, hres]
    · simp [Track.get_url]

/-- C5 witness: fresh cache, resolve at low96, then quality change to high. -/
theorem C5_witness :
    Track.get_url ⟨AudioQuality.high, some "u2"⟩
        ⟨some "u1", some AudioQuality.low96⟩ =
      (⟨some "u2", some AudioQuality.high⟩, some "u2", true) ∧
    Track.get_url ⟨AudioQuality.high, some "u2"⟩
        (⟨some "u2", some AudioQuality.high⟩ : TrackUrlCache) =
      (⟨some "u2", some AudioQuality.high⟩, some "u2", false) :=
  (C5_get_url_quality_cache ⟨AudioQuality.high, some "u2"⟩
      ⟨some "u1", some AudioQuality.low96⟩).2.2 "u2" AudioQuality.low96
    rfl rfl (by decide)

/-- A present capture is a non-empty run of ASCII digits. -/
def IsDigitRun : Option (List Char) → Prop
  | none => True
  | some ds => ds ≠ [] ∧ ∀ c ∈ ds, isNd c = true

/-- The characters contributed by one optional regex block `(\d+)X`. -/
def durationBlock (cap : Option (List Char)) (letter : Char) : List Char :=
  cap.elim [] (fun ds => ds ++ [letter])

/-- A duration string of the `PT<h>H<m>M<s>S` shape with optional
components: exactly the strings the duration regex accepts. -/
def durationChars (oh om os : Option (List Char)) : List Char :=
  'P' :: 'T' :: (durationBlock oh 'H' ++ (durationBlock om 'M' ++ durationBlock os 'S'))

/-- `takeDigits` on a digit run followed by a non-digit (or nothing)
returns exactly that split. -/
theorem takeDigits_digitRun_append (d rest : List Char)
    (hd : ∀ c ∈ d, isNd c = true)
    (hrest : rest = [] ∨ ∃ r0 rs, rest = r0 :: rs ∧ isNd r0 = false) :
    takeDigits (d ++ rest) = (d, rest) := by
  induction d with
  | nil =>
    rcases hrest with h | ⟨r0, rs, hr, h0⟩
    · simp [h, takeDigits]
    · simp [hr, takeDigits, h0]
  | cons a d ih =>
    have ha : isNd a = true := hd a (by simp)
    have ih2 := ih (fun c hc => hd c (by simp [hc]))
    simp [takeDigits, ha, ih2]

/-- The block loop stops immediately on `cs`: no leading digit run, or the
run is not followed by the block letter. -/
def ReadStops (letter : Char) (cs : List Char) : Prop :=
  (takeDigits cs).1 = [] ∨ (takeDigits cs).2.head? ≠ some letter

theorem readBlocks_stop (letter : Char) (cs : List Char) (h : ReadStops letter cs) :
    ∀ fuel cap, readBlocks letter fuel cs cap = (cap, cs) := by
  intro fuel cap
  cases fuel with
  | zero => rfl
  | succ f =>
    rcases hd : (takeDigits cs).1 with _ | ⟨a, d⟩
    · simp [readBlocks, hd]
    · rcases hr : (takeDigits cs).2 with _ | ⟨r0, rs⟩
      · simp [readBlocks, hd, hr]
      · have hne : ¬(r0 = letter) := by
          rcases h with h | h
          · rw [hd] at h
            exact absurd h (by simp)
          · rw [hr] at h
            simpa using h
        simp [readBlocks, hd, hr, hne]

theorem readBlocks_single (letter : Char) (d rest : List Char)
    (hd : ∀ c ∈ d, isNd c = true) (hne : d ≠ [])
    (hl : isNd letter = false) (hrest : ReadStops letter rest) :
    ∀ fuel cap, readBlocks letter (fuel + 1) (d ++ letter :: rest) cap = (some d, rest) := by
  intro fuel cap
  have htd : takeDigits (d ++ letter :: rest) = (d, letter :: rest) :=
    takeDigits_digitRun_append d (letter :: rest) hd (Or.inr ⟨letter, rest, rfl, hl⟩)
  rcases d with _ | ⟨a, d2⟩
  · exact absurd rfl hne
  · simp only [List.cons_append] at htd
    simp [readBlocks, htd, readBlocks_stop letter rest hrest]

/-- One optional block followed by a stopping remainder: `readBlocks` run
with the remaining input's length as fuel reads exactly the block and
captures its digits. -/
theorem readBlocks_durationBlock (letter : Char) (ob : Option (List Char))
    (hob : IsDigitRun ob) (hl : isNd letter = false)
    (rest : List Char) (hrest : ReadStops letter rest) :
    readBlocks letter (durationBlock ob letter ++ rest).length
      (durationBlock ob letter ++ rest) none = (ob, rest) := by
  cases ob with
  | none =>
    simpa [durationBlock] using readBlocks_stop letter rest hrest rest.length none
  | some d =>
    obtain ⟨hne, hd⟩ := hob
    have hlen : (durationBlock (some d) letter ++ rest).length =
        (d.length + rest.length) + 1 := by
      simp [durationBlock]
      omega
    rw [hlen]
    have h := readBlocks_single letter d rest hd hne hl hrest (d.length + rest.length) none
    simpa [durationBlock, List.append_assoc] using h

theorem readStops_nil (letter : Char) : ReadStops letter [] := by
  exact Or.inl (by simp [takeDigits])

theorem readStops_at_block (letter l2 : Char) (d tail : List Char)
    (hd : ∀ c ∈ d, isNd c = true) (hl2 : isNd l2 = false) (hne : l2 ≠ letter) :
    ReadStops letter (d ++ l2 :: tail) := by
  have htd := takeDigits_digitRun_append d (l2 :: tail) hd (Or.inr ⟨l2, tail, rfl, hl2⟩)
  exact Or.inr (by simp [htd, hne])

/-- The remainder made of the (optional) `M` and `S` blocks stops the `H`
loop, and the (optional) `S` block stops the `M` loop. -/
theorem readStops_two_blocks (letter lm ls : Char) (om os : Option (List Char))
    (h2 : IsDigitRun om) (h3 : IsDigitRun os)
    (hlm : isNd lm = false) (hls : isNd ls = false)
    (hnem : lm ≠ letter) (hnes : ls ≠ letter) :
    ReadStops letter (durationBlock om lm ++ durationBlock os ls) := by
  cases om with
  | some d =>
    obtain ⟨_, hd⟩ := h2
    have h := readStops_at_block letter lm d (durationBlock os ls) hd hlm hnem
    simpa [durationBlock, List.append_assoc] using h
  | none =>
    cases os with
    | some d =>
      obtain ⟨_, hd⟩ := h3
      have h := readStops_at_block letter ls d [] hd hls hnes
      simpa [durationBlock] using h
    | none =>
      simpa [durationBlock] using readStops_nil letter

/-- The duration regex on a string of the `PT<h>H<m>M<s>S` shape matches and
captures exactly the given components. -/
theorem capturesDuration_durationChars (oh om os : Option (List Char))
    (h1 : IsDigitRun oh) (h2 : IsDigitRun om) (h3 : IsDigitRun os) :
    capturesDuration (durationChars oh om os) = some (oh, om, os) := by
  have hH : readBlocks 'H'
      (durationBlock oh 'H' ++ (durationBlock om 'M' ++ durationBlock os 'S')).length
      (durationBlock oh 'H' ++ (durationBlock om 'M' ++ durationBlock os 'S')) none =
      (oh, durationBlock om 'M' ++ durationBlock os 'S') :=
    readBlocks_durationBlock 'H' oh h1 (by decide) _
      (readStops_two_blocks 'H' 'M' 'S' om os h2 h3 (by decide) (by decide)
        (by decide) (by decide))
  have hM : readBlocks 'M'
      (durationBlock om 'M' ++ durationBlock os 'S').length
      (durationBlock om 'M' ++ durationBlock os 'S') none =
      (om, durationBlock os 'S') := by
    have hstops : ReadStops 'M' (durationBlock os 'S') := by
      cases os with
      | some d =>
        obtain ⟨_, hd⟩ := h3
        simpa [durationBlock] using
          readStops_at_block 'M' 'S' d [] hd (by decide) (by decide)
      | none =>
        simpa [durationBlock] using readStops_nil 'M'
    exact readBlocks_durationBlock 'M' om h2 (by decide) _ hstops
  have hS : readBlocks 'S' (durationBlock os 'S').length (durationBlock os 'S') none =
      (os, []) := by
    have h := readBlocks_durationBlock 'S' os h3 (by decide) [] (readStops_nil 'S')
    simpa using h
  simp only [durationChars, capturesDuration]
  rw [hH]
  dsimp only
  rw [hM]
  dsimp only
  rw [hS]
  simp

/-- C7 counterexample: the claim says a matching string returns
`hours*3600 + minutes*60 + seconds`.  The string
`PT9999999999999999999H` matches the pattern (the component fits `u64`),
but the seconds arithmetic is 64-bit and wraps: the code yields
`(9999999999999999999 * 3600) mod 2^64 = 10402312192664793584`, not
`9999999999999999999 * 3600`. -/
theorem C7_counterexample :
    (capturesDuration (String.toList "PT9999999999999999999H")).isSome = true ∧
    durationSecsOfString "PT9999999999999999999H" = 10402312192664793584 ∧
    durationSecsOfString "PT9999999999999999999H" ≠ 9999999999999999999 * 60 * 60 := by
  refine ⟨by decide, by decide, by decide⟩

/-- C7 amended: `get_duration` parses the `PT<h>H<m>M<s>S` form (components
are `\d+` runs of Unicode decimal digits) and returns
`(hours*3600 + minutes*60 + seconds) mod 2^64` seconds (wrapping 64-bit
arithmetic; a component whose digits overflow `u64` or contain a non-ASCII
decimal digit fails `parse::<u64>` and counts as 0), absent components
count as 0, a non-matching string yields 0, and the parsed result is
computed once and cached — both for `Track` and for `Album`, which run
identical code over the shared `DurationCache` model. -/
theorem C7_duration_parse (oh om os : Option (List Char))
    (h1 : IsDigitRun oh) (h2 : IsDigitRun om) (h3 : IsDigitRun os) :
    durationSecsOfChars (durationChars oh om os) =
      ((captureValue oh * 60 * 60) + (captureValue om * 60) + captureValue os) % U64_MOD ∧
    (∀ s : String, capturesDuration s.toList = none → durationSecsOfString s = 0) ∧
    (∀ c : DurationCache, c.duration = none →
      (DurationCache.get_duration c).2.1 = durationSecsOfString c.durationStr ∧
      (DurationCache.get_duration c).1.duration = some (DurationCache.get_duration c).2.1 ∧
      (DurationCache.get_duration c).2.2 = true) ∧
    (∀ c : DurationCache,
      (DurationCache.get_duration (DurationCache.get_duration c).1).2.2 = false ∧
      (DurationCache.get_duration (DurationCache.get_duration c).1).2.1 =
        (DurationCache.get_duration c).2.1) := by
  refine ⟨?_, ?_, ?_, ?_⟩
  · simp [durationSecsOfChars, capturesDuration_durationChars oh om os h1 h2 h3]
  · intro s h
    simp only [String.toList] at h
    simp [durationSecsOfString, durationSecsOfChars, String.toList, h]
  · intro c hc
    simp [DurationCache.get_duration, hc, durationSecsOfString]
  · intro c
    rcases hc : c.duration with _ | d <;>
      simp [DurationCache.get_duration, hc]

/-- C7 witness: components 1h 2m 3s, and an hours component written with
the non-ASCII Arabic-Indic digit three (U+0663), which matches `\d` but
fails `parse::<u64>` and so counts as 0 — `PT٣H5M` evaluates to 300
seconds. -/
theorem C7_witness :
    IsDigitRun (some ['1']) ∧ IsDigitRun (some ['2']) ∧ IsDigitRun (some ['3']) ∧
    durationSecsOfChars (durationChars (some ['1']) (some ['2']) (some ['3'])) =
      ((captureValue (some ['1']) * 60 * 60) + (captureValue (some ['2']) * 60) +
        captureValue (some ['3'])) % U64_MOD ∧
    IsDigitRun (some ['٣']) ∧
    durationSecsOfChars (durationChars (some ['٣']) (some ['5']) none) =
      ((captureValue (some ['٣']) * 60 * 60) + (captureValue (some ['5']) * 60) +
        captureValue none) % U64_MOD ∧
    durationSecsOfString "PT٣H5M" = 300 := by
  have hrun : ∀ c : Char, IsDigitRun (some [c]) ↔ (isNd c = true) := by
    intro c
    simp [IsDigitRun]
  refine ⟨(hrun '1').2 (by decide), (hrun '2').2 (by decide), (hrun '3').2 (by decide),
    ?_, (hrun '٣').2 (by decide), ?_, by decide⟩
  · exact (C7_duration_parse (some ['1']) (some ['2']) (some ['3'])
      ((hrun '1').2 (by decide)) ((hrun '2').2 (by decide)) ((hrun '3').2 (by decide))).1
  · exact (C7_duration_parse (some ['٣']) (some ['5']) none
      ((hrun '٣').2 (by decide)) ((hrun '5').2 (by decide)) trivial).1

end TidalTui
